import Mathlib

/-!
Verification of the content-extraction and batch-orchestration core of
`src/app.py` (URL → body-text extractor).

The Python source is shallowly embedded:
* `normalize_whitespace` (app.py lines 15-19): the three `re.sub` passes and
  the final `str.strip()` become the list-of-characters functions `sub1`
  (`\r\n?` → `\n`), `sub2` (`[ \t]+` → one space), `sub3` (`\n{3,}` → two
  newlines) and `pyStripL`.
* `extract_body_text` (lines 22-62): HTML is modelled post-parse as a `Node`
  tree (BeautifulSoup's parsed DOM); the tag/attribute removal passes and
  `get_text(sep, strip=True)` are modelled structurally on that tree.
* `fetch_url` (lines 65-72): the HTTP transport is an oracle input
  (`TransportResult`); the function forwards any received status code as data.
* the batch loop (lines 143-173): one `ResultRow` per input URL, with the
  per-item `try/except` modelled by the `ItemOutcome` sum type.
-/

/-! ## Definitions -/

/-! ### Python whitespace and character helpers -/

/-- Characters for which Python's `str.isspace()` holds (the set stripped by
`str.strip()`); covers ASCII whitespace and the Unicode whitespace code
points recognised by CPython. -/
def pyIsSpace (c : Char) : Bool :=
  c == ' ' || c == '\t' || c == '\n' || c == '\x0b' || c == '\x0c' || c == '\r' ||
  c == '\x1c' || c == '\x1d' || c == '\x1e' || c == '\x1f' || c == '\x85' || c == '\xa0' ||
  c == '\u1680' || ('\u2000' ≤ c && c ≤ '\u200a') || c == '\u2028' || c == '\u2029' ||
  c == '\u202f' || c == '\u205f' || c == '\u3000'

/-- Characters matched by the regex class `[ \t]`. -/
def isHT (c : Char) : Bool :=
  c == ' ' || c == '\t'

/-! ### The four stages of `normalize_whitespace` (app.py lines 15-19) -/

/-- Stage 1, `re.sub(r"\r\n?", "\n", text)`: each `\r\n` pair and each lone
`\r` becomes a single `\n`. -/
def sub1 : List Char → List Char
  | [] => []
  | [c] => if c == '\r' then ['\n'] else [c]
  | a :: b :: rest =>
    if a == '\r' then
      if b == '\n' then '\n' :: sub1 rest
      else '\n' :: sub1 (b :: rest)
    else a :: sub1 (b :: rest)

/-- Stage 2, `re.sub(r"[ \t]+", " ", text)`: every maximal run of spaces and
tabs becomes a single space (the run's last character emits the space). -/
def sub2 : List Char → List Char
  | [] => []
  | [c] => if isHT c then [' '] else [c]
  | a :: b :: rest =>
    if isHT a then
      if isHT b then sub2 (b :: rest)
      else ' ' :: sub2 (b :: rest)
    else a :: sub2 (b :: rest)

/-- Stage 3, `re.sub(r"\n{3,}", "\n\n", text)`: every maximal run of three or
more newlines becomes exactly two newlines (leading newlines of a long run
are dropped until only two remain). -/
def sub3 : List Char → List Char
  | [] => []
  | [a] => [a]
  | [a, b] => [a, b]
  | a :: b :: c :: rest =>
    if a == '\n' && b == '\n' && c == '\n' then sub3 (b :: c :: rest)
    else a :: sub3 (b :: c :: rest)

/-- Removes trailing characters satisfying `pyIsSpace` (the right half of
Python's `str.strip()`). -/
def rtrim : List Char → List Char
  | [] => []
  | c :: rest =>
    match rtrim rest with
    | [] => if pyIsSpace c then [] else [c]
    | r => c :: r

/-- Stage 4, Python `str.strip()`: remove leading and trailing whitespace. -/
def pyStripL (l : List Char) : List Char :=
  rtrim (l.dropWhile pyIsSpace)

/-- The whole of `normalize_whitespace` on character lists. -/
def normList (l : List Char) : List Char :=
  pyStripL (sub3 (sub2 (sub1 l)))

/-- `normalize_whitespace` from app.py lines 15-19. -/
def normalize_whitespace (s : String) : String :=
  String.mk (normList s.data)

/-- Python `str.strip()` on strings, as used by `get_text(strip=True)`. -/
def pyStripS (s : String) : String :=
  String.mk (pyStripL s.data)

/-! ### Invariants characterising normalized text -/

/-- No two adjacent characters are both in `[ \t]`. -/
def noHH : List Char → Bool
  | a :: b :: rest => !(isHT a && isHT b) && noHH (b :: rest)
  | _ => true

/-- No three consecutive newline characters. -/
def no3 : List Char → Bool
  | a :: b :: c :: rest => !(a == '\n' && b == '\n' && c == '\n') && no3 (b :: c :: rest)
  | _ => true

/-- The first character, if any, is not Python whitespace. -/
def headNoSpace : List Char → Bool
  | [] => true
  | c :: _ => !pyIsSpace c

/-- The last character, if any, is not Python whitespace. -/
def lastNoSpace : List Char → Bool
  | [] => true
  | [c] => !pyIsSpace c
  | _ :: rest => lastNoSpace rest

/-- A fully normalized character list: no carriage return, no tab, no double
horizontal whitespace, no triple newline, and no whitespace at either end. -/
def isNormal (l : List Char) : Prop :=
  '\r' ∉ l ∧ '\t' ∉ l ∧ noHH l = true ∧ no3 l = true ∧
    headNoSpace l = true ∧ lastNoSpace l = true

/-! ### The DOM model

`extract_body_text` receives HTML already parsed by BeautifulSoup; we model
the parsed document as a tree of elements (with optional `id` and `class`
attributes, the two the code inspects) and text nodes. -/

/-- A parsed DOM node: a text node, or an element with its tag name, optional
`id` attribute, optional `class` attribute (as the raw attribute string), and
children in document order. -/
inductive Node where
  | text (s : String)
  | elem (tag : String) (idA clsA : Option String) (children : List Node)

/-- ASCII lowercase of a string, modelling the effect of `re.I` on the
alternation patterns (which contain ASCII letters only). -/
def lowerStr (s : String) : String :=
  String.mk (s.data.map Char.toLower)

/-- Whether `pat` occurs at the start of `l`. -/
def beginsList : List Char → List Char → Bool
  | [], _ => true
  | _ :: _, [] => false
  | p :: ps, c :: cs => p == c && beginsList ps cs

/-- Whether `pat` occurs somewhere in `l` (substring search, the semantics of
`re.search` for a plain-word pattern). -/
def containsSeq (pat : List Char) : List Char → Bool
  | [] => pat.isEmpty
  | c :: cs => beginsList pat (c :: cs) || containsSeq pat cs

/-- `re.search(pat, v, re.I)` for a plain lowercase word `pat`: does `pat`
occur in `v` case-insensitively? -/
def reSearchI (pat : String) (v : String) : Bool :=
  containsSeq pat.data (lowerStr v).data

/-- The alternation of the `id` junk regex at app.py line 50:
`(cookie|consent|gdpr|newsletter|popup|modal)`. -/
def idPats : List String :=
  ["cookie", "consent", "gdpr", "newsletter", "popup", "modal"]

/-- The alternation of the `class` junk regex at app.py line 51:
`(cookie|consent|gdpr|newsletter|popup|modal|overlay)`. -/
def clsPats : List String :=
  ["cookie", "consent", "gdpr", "newsletter", "popup", "modal", "overlay"]

/-- `find_all(attrs={attr: pattern})`: the attribute must be present and its
value must match one of the alternation's words. -/
def attrMatches (pats : List String) : Option String → Bool
  | none => false
  | some v => pats.any (fun p => reSearchI p v)

/-- The non-content tags removed at app.py lines 39-41. -/
def nonContentTags : List String :=
  ["script", "style", "noscript", "svg", "canvas", "iframe"]

/-- The layout/boilerplate tags removed at app.py lines 44-46. -/
def layoutTags : List String :=
  ["header", "footer", "nav", "aside"]

mutual

/-- `for t in body.find_all(tag_name): t.decompose()` over the listed tag
names: detach every element whose tag is in `bad`, anywhere in the forest
(`removeTagsN` handles one node, `removeTags` a forest). -/
def removeTagsN (bad : List String) : Node → List Node
  | Node.text s => [Node.text s]
  | Node.elem t i c cs =>
    if bad.contains t then [] else [Node.elem t i c (removeTags bad cs)]

/-- Forest-level case of the tag removal pass. -/
def removeTags (bad : List String) : List Node → List Node
  | [] => []
  | n :: rest => removeTagsN bad n ++ removeTags bad rest

end

/-- Whether the junk-selector loop of app.py lines 49-57 decomposes this
element: `id` matching the six-word regex or `class` matching the seven-word
regex, guarded by `t.name != "body"`. -/
def isJunkElem : Node → Bool
  | Node.text _ => false
  | Node.elem t i c _ =>
    !(t == "body") && (attrMatches idPats i || attrMatches clsPats c)

mutual

/-- The junk-selector removal pass (app.py lines 49-57) on one node and on a
forest. -/
def removeJunkN : Node → List Node
  | Node.text s => [Node.text s]
  | Node.elem t i c cs =>
    if isJunkElem (Node.elem t i c cs) then []
    else [Node.elem t i c (removeJunk cs)]

/-- Forest-level case of the junk-selector removal pass. -/
def removeJunk : List Node → List Node
  | [] => []
  | n :: rest => removeJunkN n ++ removeJunk rest

end

mutual

/-- All text-node strings of a node / a forest in document order
(BeautifulSoup's `_all_strings` stream before stripping). -/
def collectTextsN : Node → List String
  | Node.text s => [s]
  | Node.elem _ _ _ cs => collectTextsL cs

/-- Forest-level case of the text-node stream. -/
def collectTextsL : List Node → List String
  | [] => []
  | n :: rest => collectTextsN n ++ collectTextsL rest

end

/-- `node.get_text(sep, strip=True)`: strip every descendant string, drop the
ones that become empty, join the rest with `sep`. -/
def getTextSep (sep : String) (n : Node) : String :=
  String.intercalate sep
    (((collectTextsL [n]).map pyStripS).filter (fun s => !(s == "")))

mutual

/-- `soup.<tag>`: the first element with the given tag in document order
(depth-first, the element itself before its children). -/
def findElemN (tag : String) : Node → Option Node
  | Node.text _ => none
  | Node.elem t i c cs =>
    if t == tag then some (Node.elem t i c cs) else findElemL tag cs

/-- Forest-level case of the first-element search. -/
def findElemL (tag : String) : List Node → Option Node
  | [] => none
  | n :: rest =>
    match findElemN tag n with
    | some m => some m
    | none => findElemL tag rest

end

/-- The title computation of app.py lines 29-31: the first `<title>`
element's text if present and non-blank (whitespace collapsed to single
spaces by `get_text(" ", strip=True)`), else the empty string. -/
def titleOf (doc : Node) : String :=
  match findElemL "title" [doc] with
  | none => ""
  | some t => if getTextSep "" t == "" then "" else getTextSep " " t

/-- The three removal passes of app.py lines 39-57 applied to the body's
children, in source order: non-content tags, then layout tags, then the
junk id/class selectors. -/
def cleanChildren (cs : List Node) : List Node :=
  removeJunk (removeTags layoutTags (removeTags nonContentTags cs))

/-- The body element after the removal passes; only its children change. -/
def cleanBody : Node → Node
  | Node.text s => Node.text s
  | Node.elem t i c cs => Node.elem t i c (cleanChildren cs)

/-- `extract_body_text` from app.py lines 22-62, on the parsed document:
title plus cleaned, normalized body text; whole-document fallback when no
`<body>` element exists. -/
def extract_body_text (doc : Node) : String × String :=
  let title := titleOf doc
  match findElemL "body" [doc] with
  | none => (title, normalize_whitespace (getTextSep "\n" doc))
  | some b => (title, normalize_whitespace (getTextSep "\n" (cleanBody b)))

/-! ### The Fetcher model (app.py lines 65-72) -/

/-- The spec's `NetworkError`: the failure signal raised by the transport
layer (timeout, connection failure, DNS failure, malformed URL). -/
structure NetworkError where
  message : String
deriving DecidableEq

/-- What the HTTP transport (`requests.get`) does for one URL: either a
complete response (any status code) or a transport-level failure. This is an
oracle input to `fetch_url`, which adds no behaviour of its own. -/
inductive TransportResult where
  | response (status : Nat) (finalUrl htmlText : String)
  | failure (msg : String)

/-- `fetch_url` from app.py lines 65-72: returns
`(r.status_code, r.url, r.text)` untouched for every completed response
(no status inspection, no `raise_for_status`), and propagates transport
failures to the caller. -/
def fetch_url : TransportResult → Except NetworkError (Nat × String × String)
  | TransportResult.response status finalUrl htmlText =>
    Except.ok (status, finalUrl, htmlText)
  | TransportResult.failure m => Except.error ⟨m⟩

/-! ### The batch loop model (app.py lines 143-173) -/

/-- One output row of the batch loop (the dict literals at app.py lines
150-158 and 161-169). A failure row stores `""` for `http_status` in the
source; the success rows store the integer code, so the field is modelled as
`Option Nat` with `none` for the failure default. -/
structure ResultRow where
  input_url : String
  final_url : String
  http_status : Option Nat
  title : String
  body_text : String
  body_len_chars : Nat
  error : String
deriving DecidableEq

/-- What happens inside the `try` block for one URL: either the fetch
completes (giving status, final URL and the parsed document) and extraction
runs, or some exception is raised by fetch or extraction, carrying the
message `str(e)`. -/
inductive ItemOutcome where
  | fetched (status : Nat) (finalUrl : String) (doc : Node)
  | raised (msg : String)

/-- One iteration of the batch loop (the `try/except` body, app.py lines
146-169): a fully populated success row with `error=""`, or a failure row
with default content fields and the exception message. -/
def processItem (url : String) : ItemOutcome → ResultRow
  | ItemOutcome.fetched status finalUrl doc =>
    let r := extract_body_text doc
    { input_url := url, final_url := finalUrl, http_status := some status,
      title := r.1, body_text := r.2, body_len_chars := r.2.length, error := "" }
  | ItemOutcome.raised msg =>
    { input_url := url, final_url := "", http_status := none,
      title := "", body_text := "", body_len_chars := 0, error := msg }

/-- The whole batch loop: one row appended per input URL, in input order
(the progress report and the inter-request sleep do not touch the rows). -/
def runBatch : List (String × ItemOutcome) → List ResultRow
  | [] => []
  | (url, oc) :: rest => processItem url oc :: runBatch rest

/-- All content fields of a row hold the empty/default values used by the
failure branch at app.py lines 161-169. -/
def contentFieldsEmpty (r : ResultRow) : Prop :=
  r.final_url = "" ∧ r.http_status = none ∧ r.title = "" ∧
    r.body_text = "" ∧ r.body_len_chars = 0

/-! ### Definitions following the spec's words (for claims the code deviates
from; each is compared with the embedding of the source) -/

mutual

/-- Modelled from the spec (claim C1's wording): removal of every element
whose `id` **or** `class` matches any of the seven patterns including
`overlay`; `true` when no such node remains. -/
def specJunkFree7N : Node → Bool
  | Node.text _ => true
  | Node.elem t i c cs =>
    (t == "body" || !(attrMatches clsPats i || attrMatches clsPats c)) &&
      specJunkFree7 cs

/-- Modelled from the spec (claim C1's wording): `true` when no element
(other than one named `body`) whose `id` or `class` matches any of the seven
patterns including `overlay` remains in the forest. The source's `id` regex
has only six patterns. -/
def specJunkFree7 : List Node → Bool
  | [] => true
  | n :: rest => specJunkFree7N n && specJunkFree7 rest

end

mutual

/-- Node-level case of `junkFree`. -/
def junkFreeN : Node → Bool
  | Node.text _ => true
  | Node.elem t i c cs =>
    (t == "body" || !(attrMatches idPats i || attrMatches clsPats c)) &&
      junkFree cs

/-- The removal of claim C1 performed on the source's regexes: `true` when no
remaining element (other than one named `body`) has an `id` matching the
six-word regex or a `class` matching the seven-word regex. -/
def junkFree : List Node → Bool
  | [] => true
  | n :: rest => junkFreeN n && junkFree rest

end

/-- The block-level HTML tags, for claim C2's reading of the spec's "block
separator between text belonging to distinct block-level nodes". -/
def blockTags : List String :=
  ["address", "article", "aside", "blockquote", "body", "dd", "div", "dl", "dt",
   "fieldset", "figcaption", "figure", "footer", "form", "h1", "h2", "h3", "h4",
   "h5", "h6", "header", "hr", "li", "main", "nav", "ol", "p", "pre", "section",
   "table", "td", "th", "tr", "ul"]

/-- A token stream for claim C2's block-separation reading: text pieces, with
a break emitted at every block-level element boundary. -/
inductive TextTok where
  | piece (s : String)
  | brk

mutual

/-- Modelled from the spec (claim C2's wording): one node's text pieces and
block breaks; inline elements contribute their text with no break,
block-level elements are fenced by breaks. -/
def blockToksN : Node → List TextTok
  | Node.text s => [TextTok.piece s]
  | Node.elem t _ _ cs =>
    if blockTags.contains t then
      TextTok.brk :: (blockToksL cs ++ [TextTok.brk])
    else blockToksL cs

/-- Modelled from the spec (claim C2's wording): flatten a forest into text
pieces and block breaks. -/
def blockToksL : List Node → List TextTok
  | [] => []
  | n :: rest => blockToksN n ++ blockToksL rest

end

/-- Concatenate the maximal runs of text pieces between breaks. -/
def splitToks : List TextTok → List String
  | [] => [""]
  | TextTok.brk :: rest => "" :: splitToks rest
  | TextTok.piece s :: rest =>
    match splitToks rest with
    | [] => [s]
    | cur :: more => (s ++ cur) :: more

/-- Modelled from the spec (claim C2's wording): body text produced by
joining with a newline the text of distinct block-level nodes, each piece
trimmed, empty pieces dropped — inline elements within one block not split. -/
def spec_blockText (b : Node) : String :=
  String.intercalate "\n"
    (((splitToks (blockToksL [b])).map pyStripS).filter (fun s => !(s == "")))

/-- The number of nodes of a forest, counting every nested node. -/
def forestSize : List Node → Nat
  | [] => 0
  | Node.text _ :: rest => 1 + forestSize rest
  | Node.elem _ _ _ cs :: rest => 1 + forestSize cs + forestSize rest

/-- A worklist traversal of all text-node strings of a forest, used to state
the amended claim C2 independently of `collectTextsL`'s structure. -/
def textPiecesAux : List Node → List String
  | [] => []
  | Node.text s :: rest => s :: textPiecesAux rest
  | Node.elem _ _ _ cs :: rest => textPiecesAux (cs ++ rest)
termination_by l => forestSize l
decreasing_by
  all_goals
    have h : ∀ a b : List Node, forestSize (a ++ b) = forestSize a + forestSize b := by
      intro a
      induction a with
      | nil => intro b; simp [forestSize]
      | cons n t ih =>
        intro b
        cases n <;> simp [forestSize, ih] <;> omega
    simp only [forestSize, h]
    omega

/-! ### Concrete documents used by counterexamples and witnesses -/

/-- A `<div id="overlay">X</div>` inside `<body>`: its `id` matches the
pattern `overlay`, its `class` is absent. -/
def overlayDiv : Node :=
  Node.elem "div" (some "overlay") none [Node.text "X"]

/-- `<html><body><div id="overlay">X</div></body></html>`. -/
def exDocOverlay : Node :=
  Node.elem "html" none none
    [Node.elem "body" none none [overlayDiv]]

/-- `<p>a<b>b</b></p>`: one block element containing a bare text node and an
inline `<b>` element. -/
def exInlineP : Node :=
  Node.elem "p" none none [Node.text "a", Node.elem "b" none none [Node.text "b"]]

/-- The body `<body><p>a<b>b</b></p></body>`. -/
def exBodyInline : Node :=
  Node.elem "body" none none [exInlineP]

/-- `<html><body><p>a<b>b</b></p></body></html>`. -/
def exDocInline : Node :=
  Node.elem "html" none none [exBodyInline]

/-- A document with no `<body>` element:
`<html><head><title>T</title><p>hello</p></head></html>`. -/
def exDocNoBody : Node :=
  Node.elem "html" none none
    [Node.elem "head" none none
      [Node.elem "title" none none [Node.text "T"],
       Node.elem "p" none none [Node.text "hello"]]]

/-! ## Theorems -/

/-! ### Helper lemmas about the normalization stages -/

/-- `noHH` restricted to the tail. -/
theorem noHH_tail {a : Char} {l : List Char} (h : noHH (a :: l) = true) :
    noHH l = true := by
  cases l with
  | nil => rfl
  | cons b t => simp [noHH] at h; exact h.2

/-- Extending a `noHH` list with a non-`[ \t]` head. -/
theorem noHH_cons {a : Char} {l : List Char} (ha : isHT a = false)
    (hl : noHH l = true) : noHH (a :: l) = true := by
  cases l with
  | nil => rfl
  | cons b t => simp [noHH, ha, hl]

/-- `no3` restricted to the tail. -/
theorem no3_tail {a : Char} {l : List Char} (h : no3 (a :: l) = true) :
    no3 l = true := by
  cases l with
  | nil => rfl
  | cons b t =>
    cases t with
    | nil => rfl
    | cons c u => simp [no3] at h; exact h.2

/-- Membership in a `dropWhile` result implies membership in the input. -/
theorem dropWhile_mem {p : Char → Bool} {x : Char} :
    ∀ {l : List Char}, x ∈ l.dropWhile p → x ∈ l
  | [], h => h
  | c :: rest, h => by
    by_cases hc : p c
    · rw [List.dropWhile_cons_of_pos hc] at h
      exact List.mem_cons_of_mem c (dropWhile_mem h)
    · rwa [List.dropWhile_cons_of_neg hc] at h

/-- `dropWhile` preserves `noHH`. -/
theorem noHH_dropWhile {p : Char → Bool} :
    ∀ {l : List Char}, noHH l = true → noHH (l.dropWhile p) = true
  | [], h => h
  | c :: rest, h => by
    by_cases hc : p c
    · rw [List.dropWhile_cons_of_pos hc]
      exact noHH_dropWhile (noHH_tail h)
    · rwa [List.dropWhile_cons_of_neg hc]

/-- `dropWhile` preserves `no3`. -/
theorem no3_dropWhile {p : Char → Bool} :
    ∀ {l : List Char}, no3 l = true → no3 (l.dropWhile p) = true
  | [], h => h
  | c :: rest, h => by
    by_cases hc : p c
    · rw [List.dropWhile_cons_of_pos hc]
      exact no3_dropWhile (no3_tail h)
    · rwa [List.dropWhile_cons_of_neg hc]

/-- After `dropWhile pyIsSpace` the head is not whitespace. -/
theorem headNoSpace_dropWhile :
    ∀ l : List Char, headNoSpace (l.dropWhile pyIsSpace) = true
  | [] => rfl
  | c :: rest => by
    by_cases hc : pyIsSpace c
    · rw [List.dropWhile_cons_of_pos hc]
      exact headNoSpace_dropWhile rest
    · rw [List.dropWhile_cons_of_neg hc]
      simpa [headNoSpace] using hc

/-- `dropWhile pyIsSpace` is the identity on lists with a non-space head. -/
theorem dropWhile_id {l : List Char} (h : headNoSpace l = true) :
    l.dropWhile pyIsSpace = l := by
  cases l with
  | nil => rfl
  | cons c rest =>
    simp [headNoSpace] at h
    exact List.dropWhile_cons_of_neg (by simp [h])

/-- `rtrim` on a cons is empty or keeps the head and trims the tail. -/
theorem rtrim_dichotomy (c : Char) (rest : List Char) :
    rtrim (c :: rest) = [] ∨ rtrim (c :: rest) = c :: rtrim rest := by
  rcases h : rtrim rest with _ | ⟨d, r⟩
  · by_cases hc : pyIsSpace c
    · left; simp [rtrim, h, hc]
    · right; simp [rtrim, h, hc]
  · right; simp [rtrim, h]

/-- Unfolding `rtrim` on a cons whose tail trims to a non-empty list. -/
theorem rtrim_cons_ne {c : Char} {rest : List Char} (h : rtrim rest ≠ []) :
    rtrim (c :: rest) = c :: rtrim rest := by
  rcases hr : rtrim rest with _ | ⟨d, r⟩
  · exact absurd hr h
  · simp [rtrim, hr]

/-- Membership in `rtrim`'s result implies membership in the input. -/
theorem rtrim_mem {x : Char} : ∀ {l : List Char}, x ∈ rtrim l → x ∈ l
  | [], h => h
  | c :: rest, h => by
    rcases rtrim_dichotomy c rest with hd | hd
    · rw [hd] at h; cases h
    · rw [hd] at h
      rcases List.mem_cons.mp h with h1 | h1
      · exact h1 ▸ List.mem_cons_self c rest
      · exact List.mem_cons_of_mem c (rtrim_mem h1)

/-- `rtrim` preserves `noHH`. -/
theorem noHH_rtrim : ∀ {l : List Char}, noHH l = true → noHH (rtrim l) = true
  | [], _ => rfl
  | c :: rest, h => by
    rcases rtrim_dichotomy c rest with hd | hd
    · rw [hd]; rfl
    · rw [hd]
      cases rest with
      | nil => rfl
      | cons b rest' =>
        rcases rtrim_dichotomy b rest' with hd' | hd'
        · rw [hd']; rfl
        · rw [hd']
          have hpair : (!(isHT c && isHT b)) = true := by
            simp [noHH] at h; simp [h.1]
          have htl : noHH (b :: rtrim rest') = true := by
            rw [← hd']
            exact noHH_rtrim (noHH_tail h)
          cases hr : rtrim rest' with
          | nil => simp [noHH, hpair]
          | cons e u =>
            rw [hr] at htl
            simp [noHH] at htl ⊢
            exact ⟨by simpa using hpair, htl⟩

/-- `rtrim` preserves `no3`. -/
theorem no3_rtrim : ∀ {l : List Char}, no3 l = true → no3 (rtrim l) = true
  | [], _ => rfl
  | c :: rest, h => by
    rcases rtrim_dichotomy c rest with hd | hd
    · rw [hd]; rfl
    · rw [hd]
      cases rest with
      | nil => rfl
      | cons b rest' =>
        rcases rtrim_dichotomy b rest' with hd' | hd'
        · rw [hd']; rfl
        · rw [hd']
          cases rest' with
          | nil => rfl
          | cons d rest'' =>
            rcases rtrim_dichotomy d rest'' with hd'' | hd''
            · rw [hd'']; rfl
            · rw [hd'']
              have htriple : (!(c == '\n' && b == '\n' && d == '\n')) = true := by
                simp [no3] at h; simp [h.1]
              have htl : no3 (b :: d :: rtrim rest'') = true := by
                rw [← hd'', ← hd']
                exact no3_rtrim (no3_tail h)
              simp [no3] at htl ⊢
              exact ⟨by simpa using htriple, htl⟩

/-- The result of `rtrim` never ends in whitespace. -/
theorem rtrim_last : ∀ l : List Char, lastNoSpace (rtrim l) = true
  | [] => rfl
  | c :: rest => by
    rcases h : rtrim rest with _ | ⟨d, r⟩
    · by_cases hc : pyIsSpace c
      · simp [rtrim, h, hc, lastNoSpace]
      · simp [rtrim, h, hc, lastNoSpace]
    · have : rtrim (c :: rest) = c :: d :: r := by simp [rtrim, h]
      rw [this]
      have := rtrim_last rest
      rw [h] at this
      simpa [lastNoSpace] using this

/-- `rtrim` preserves a non-space head. -/
theorem rtrim_headNoSpace {l : List Char} (h : headNoSpace l = true) :
    headNoSpace (rtrim l) = true := by
  cases l with
  | nil => rfl
  | cons c rest =>
    rcases rtrim_dichotomy c rest with hd | hd
    · rw [hd]; rfl
    · rw [hd]; simpa [headNoSpace] using h

/-- `rtrim` is the identity on lists that do not end in whitespace. -/
theorem rtrim_id : ∀ {l : List Char}, lastNoSpace l = true → rtrim l = l
  | [], _ => rfl
  | [c], h => by
    simp [lastNoSpace] at h
    simp [rtrim, h]
  | c :: b :: rest, h => by
    have htl : lastNoSpace (b :: rest) = true := by
      simpa [lastNoSpace] using h
    have ih : rtrim (b :: rest) = b :: rest := rtrim_id htl
    rw [rtrim_cons_ne (by rw [ih]; exact List.cons_ne_nil b rest), ih]

/-- Stage 1 leaves no carriage return behind. -/
theorem sub1_noCR : ∀ l : List Char, '\r' ∉ sub1 l
  | [] => by simp [sub1]
  | [c] => by
    by_cases hc : c == '\r'
    · simp [sub1, hc]
    · rw [show sub1 [c] = [c] by simp [sub1, hc]]
      simp only [List.mem_singleton]
      exact fun he => (by simpa using hc : ¬c = '\r') he.symm
  | a :: b :: rest => by
    by_cases ha : a == '\r'
    · by_cases hb : b == '\n'
      · rw [show sub1 (a :: b :: rest) = '\n' :: sub1 rest by simp [sub1, ha, hb]]
        simp only [List.mem_cons]
        rintro (h | h)
        · simp at h
        · exact sub1_noCR rest h
      · rw [show sub1 (a :: b :: rest) = '\n' :: sub1 (b :: rest) by simp [sub1, ha, hb]]
        simp only [List.mem_cons]
        rintro (h | h)
        · simp at h
        · exact sub1_noCR (b :: rest) h
    · rw [show sub1 (a :: b :: rest) = a :: sub1 (b :: rest) by simp [sub1, ha]]
      simp only [List.mem_cons]
      rintro (h | h)
      · exact (by simpa using ha : ¬a = '\r') h.symm
      · exact sub1_noCR (b :: rest) h

/-- Stage 1 is the identity on carriage-return-free text. -/
theorem sub1_id : ∀ {l : List Char}, '\r' ∉ l → sub1 l = l
  | [], _ => rfl
  | [c], h => by
    have hc : (c == '\r') = false := by
      simp only [beq_eq_false_iff_ne]
      intro he
      exact h (by simp [he])
    simp [sub1, hc]
  | a :: b :: rest, h => by
    have ha : (a == '\r') = false := by
      simp only [beq_eq_false_iff_ne]
      intro he
      exact h (by simp [he])
    rw [show sub1 (a :: b :: rest) = a :: sub1 (b :: rest) by simp [sub1, ha]]
    rw [sub1_id (fun hm => h (List.mem_cons_of_mem a hm))]

/-- Every character of stage 2's output is a space or comes from the input. -/
theorem sub2_mem {x : Char} : ∀ {l : List Char}, x ∈ sub2 l → x = ' ' ∨ x ∈ l
  | [], h => by simp [sub2] at h
  | [c], h => by
    by_cases hc : isHT c
    · rw [show sub2 [c] = [' '] by simp [sub2, hc]] at h
      simp only [List.mem_singleton] at h
      exact Or.inl h
    · rw [show sub2 [c] = [c] by simp [sub2, hc]] at h
      exact Or.inr h
  | a :: b :: rest, h => by
    by_cases ha : isHT a
    · by_cases hb : isHT b
      · rw [show sub2 (a :: b :: rest) = sub2 (b :: rest) by simp [sub2, ha, hb]] at h
        rcases sub2_mem h with h1 | h1
        · exact Or.inl h1
        · exact Or.inr (List.mem_cons_of_mem a h1)
      · rw [show sub2 (a :: b :: rest) = ' ' :: sub2 (b :: rest) by
            simp [sub2, ha, hb]] at h
        rcases List.mem_cons.mp h with h1 | h1
        · exact Or.inl h1
        · rcases sub2_mem h1 with h2 | h2
          · exact Or.inl h2
          · exact Or.inr (List.mem_cons_of_mem a h2)
    · rw [show sub2 (a :: b :: rest) = a :: sub2 (b :: rest) by simp [sub2, ha]] at h
      rcases List.mem_cons.mp h with h1 | h1
      · exact Or.inr (h1 ▸ List.mem_cons_self a (b :: rest))
      · rcases sub2_mem h1 with h2 | h2
        · exact Or.inl h2
        · exact Or.inr (List.mem_cons_of_mem a h2)

/-- Stage 2 leaves no tab behind. -/
theorem sub2_noTab : ∀ l : List Char, '\t' ∉ sub2 l
  | [] => by simp [sub2]
  | [c] => by
    by_cases hc : isHT c
    · rw [show sub2 [c] = [' '] by simp [sub2, hc]]
      simp
    · rw [show sub2 [c] = [c] by simp [sub2, hc]]
      simp only [List.mem_singleton]
      intro he
      exact hc (by rw [← he]; decide)
  | a :: b :: rest => by
    by_cases ha : isHT a
    · by_cases hb : isHT b
      · rw [show sub2 (a :: b :: rest) = sub2 (b :: rest) by simp [sub2, ha, hb]]
        exact sub2_noTab (b :: rest)
      · rw [show sub2 (a :: b :: rest) = ' ' :: sub2 (b :: rest) by
            simp [sub2, ha, hb]]
        simp only [List.mem_cons]
        rintro (h | h)
        · simp at h
        · exact sub2_noTab (b :: rest) h
    · rw [show sub2 (a :: b :: rest) = a :: sub2 (b :: rest) by simp [sub2, ha]]
      simp only [List.mem_cons]
      rintro (h | h)
      · exact ha (by rw [← h]; decide)
      · exact sub2_noTab (b :: rest) h

/-- Stage 2's output starts with the input's head when that head is not
horizontal whitespace. -/
theorem sub2_head_notHT {b : Char} (rest : List Char) (hb : ¬isHT b = true) :
    ∃ Z, sub2 (b :: rest) = b :: Z := by
  cases rest with
  | nil => exact ⟨[], by simp [sub2, hb]⟩
  | cons d rest' => exact ⟨sub2 (d :: rest'), by simp [sub2, hb]⟩

/-- Stage 2 leaves no two adjacent horizontal-whitespace characters. -/
theorem noHH_sub2 : ∀ l : List Char, noHH (sub2 l) = true
  | [] => rfl
  | [c] => by
    by_cases hc : isHT c
    · rw [show sub2 [c] = [' '] by simp [sub2, hc]]; rfl
    · rw [show sub2 [c] = [c] by simp [sub2, hc]]; rfl
  | a :: b :: rest => by
    by_cases ha : isHT a
    · by_cases hb : isHT b
      · rw [show sub2 (a :: b :: rest) = sub2 (b :: rest) by simp [sub2, ha, hb]]
        exact noHH_sub2 (b :: rest)
      · rw [show sub2 (a :: b :: rest) = ' ' :: sub2 (b :: rest) by
            simp [sub2, ha, hb]]
        rcases sub2_head_notHT rest hb with ⟨Z, hZ⟩
        rw [hZ]
        have htl : noHH (b :: Z) = true := hZ ▸ noHH_sub2 (b :: rest)
        have hbf : isHT b = false := by simpa using hb
        simpa [noHH, hbf] using htl
    · rw [show sub2 (a :: b :: rest) = a :: sub2 (b :: rest) by simp [sub2, ha]]
      exact noHH_cons (by simpa using ha) (noHH_sub2 (b :: rest))

/-- Stage 2 is the identity on tab-free text with no adjacent horizontal
whitespace. -/
theorem sub2_id : ∀ {l : List Char}, '\t' ∉ l → noHH l = true → sub2 l = l
  | [], _, _ => rfl
  | [c], ht, _ => by
    by_cases hc : isHT c
    · have hcSp : c = ' ' := by
        rcases (by simpa [isHT] using hc : c = ' ' ∨ c = '\t') with h | h
        · exact h
        · exact absurd (by simp [h]) ht
      rw [show sub2 [c] = [' '] by simp [sub2, hc], hcSp]
    · rw [show sub2 [c] = [c] by simp [sub2, hc]]
  | a :: b :: rest, ht, hh => by
    by_cases ha : isHT a
    · have hb : isHT b = false := by
        simp [noHH, ha] at hh
        simpa using hh.1
      have haSp : a = ' ' := by
        rcases (by simpa [isHT] using ha : a = ' ' ∨ a = '\t') with h | h
        · exact h
        · exact absurd (h ▸ List.mem_cons_self a (b :: rest)) ht
      rw [show sub2 (a :: b :: rest) = ' ' :: sub2 (b :: rest) by
            simp [sub2, ha, hb]]
      rw [sub2_id (fun hm => ht (List.mem_cons_of_mem a hm)) (noHH_tail hh), haSp]
    · rw [show sub2 (a :: b :: rest) = a :: sub2 (b :: rest) by simp [sub2, ha]]
      rw [sub2_id (fun hm => ht (List.mem_cons_of_mem a hm)) (noHH_tail hh)]

/-- Every character of stage 3's output comes from the input (stage 3 only
drops characters). -/
theorem sub3_mem {x : Char} : ∀ {l : List Char}, x ∈ sub3 l → x ∈ l
  | [], h => h
  | [a], h => h
  | [a, b], h => h
  | a :: b :: c :: rest, h => by
    by_cases hc : (a == '\n' && b == '\n' && c == '\n') = true
    · rw [show sub3 (a :: b :: c :: rest) = sub3 (b :: c :: rest) by
          simp [sub3, hc]] at h
      exact List.mem_cons_of_mem a (sub3_mem h)
    · rw [show sub3 (a :: b :: c :: rest) = a :: sub3 (b :: c :: rest) by
          simp only [sub3]; rw [if_neg hc]] at h
      rcases List.mem_cons.mp h with h1 | h1
      · exact h1 ▸ List.mem_cons_self a (b :: c :: rest)
      · exact List.mem_cons_of_mem a (sub3_mem h1)

/-- Stage 3 keeps the first two characters of its input. -/
theorem sub3_shape2 : ∀ (rest : List Char) (b c : Char),
    ∃ Y, sub3 (b :: c :: rest) = b :: c :: Y
  | [], b, c => ⟨[], by simp [sub3]⟩
  | d :: rest', b, c => by
    by_cases hc : (b == '\n' && c == '\n' && d == '\n') = true
    · rcases sub3_shape2 rest' c d with ⟨Y, hY⟩
      obtain ⟨⟨hb, hcn⟩, hd⟩ : (b = '\n' ∧ c = '\n') ∧ d = '\n' := by simpa using hc
      refine ⟨Y, ?_⟩
      rw [show sub3 (b :: c :: d :: rest') = sub3 (c :: d :: rest') by
          simp [sub3, hc]]
      rw [hY, hb, hcn, hd]
    · rcases sub3_shape2 rest' c d with ⟨Y, hY⟩
      refine ⟨d :: Y, ?_⟩
      rw [show sub3 (b :: c :: d :: rest') = b :: sub3 (c :: d :: rest') by
          simp only [sub3]; rw [if_neg hc]]
      rw [hY]

/-- Stage 3 leaves no three consecutive newlines. -/
theorem no3_sub3 : ∀ l : List Char, no3 (sub3 l) = true
  | [] => rfl
  | [a] => rfl
  | [a, b] => rfl
  | a :: b :: c :: rest => by
    by_cases hc : (a == '\n' && b == '\n' && c == '\n') = true
    · rw [show sub3 (a :: b :: c :: rest) = sub3 (b :: c :: rest) by
          simp [sub3, hc]]
      exact no3_sub3 (b :: c :: rest)
    · rw [show sub3 (a :: b :: c :: rest) = a :: sub3 (b :: c :: rest) by
          simp only [sub3]; rw [if_neg hc]]
      rcases sub3_shape2 rest b c with ⟨Y, hY⟩
      rw [hY]
      have htl : no3 (b :: c :: Y) = true := hY ▸ no3_sub3 (b :: c :: rest)
      have hcf : (a == '\n' && b == '\n' && c == '\n') = false := by
        cases hx : (a == '\n' && b == '\n' && c == '\n') with
        | false => rfl
        | true => exact absurd hx hc
      simp only [no3, Bool.and_eq_true]
      exact ⟨by simp [hcf], htl⟩

/-- Stage 3 preserves `noHH`. -/
theorem noHH_sub3 : ∀ {l : List Char}, noHH l = true → noHH (sub3 l) = true
  | [], h => h
  | [a], h => h
  | [a, b], h => h
  | a :: b :: c :: rest, h => by
    by_cases hc : (a == '\n' && b == '\n' && c == '\n') = true
    · rw [show sub3 (a :: b :: c :: rest) = sub3 (b :: c :: rest) by
          simp [sub3, hc]]
      exact noHH_sub3 (noHH_tail h)
    · rw [show sub3 (a :: b :: c :: rest) = a :: sub3 (b :: c :: rest) by
          simp only [sub3]; rw [if_neg hc]]
      rcases sub3_shape2 rest b c with ⟨Y, hY⟩
      rw [hY]
      have htl : noHH (b :: c :: Y) = true := hY ▸ noHH_sub3 (noHH_tail h)
      have hpair : (!(isHT a && isHT b)) = true := by
        simp only [noHH, Bool.and_eq_true] at h
        simp [h.1]
      simp only [noHH, Bool.and_eq_true] at htl ⊢
      exact ⟨by simpa using hpair, htl⟩

/-- Stage 3 is the identity on text with no triple newline. -/
theorem sub3_id : ∀ {l : List Char}, no3 l = true → sub3 l = l
  | [], _ => rfl
  | [a], _ => rfl
  | [a, b], _ => rfl
  | a :: b :: c :: rest, h => by
    have h1 : (!(a == '\n' && b == '\n' && c == '\n')) = true := by
      simp only [no3, Bool.and_eq_true] at h
      exact h.1
    have hc : ¬(a == '\n' && b == '\n' && c == '\n') = true := by
      simp only [Bool.not_eq_eq_eq_not, Bool.not_true] at h1
      simp [h1]
    rw [show sub3 (a :: b :: c :: rest) = a :: sub3 (b :: c :: rest) by
        simp only [sub3]; rw [if_neg hc]]
    rw [sub3_id (no3_tail h)]

/-- `normList` always produces a fully normalized character list. -/
theorem isNormal_normList (l : List Char) : isNormal (normList l) := by
  set l1 := sub1 l with hl1
  set l2 := sub2 l1 with hl2
  set l3 := sub3 l2 with hl3
  set l4 := l3.dropWhile pyIsSpace with hl4
  have noCR1 : '\r' ∉ l1 := sub1_noCR l
  have noCR2 : '\r' ∉ l2 := fun hm => by
    rcases sub2_mem hm with h | h
    · simp at h
    · exact noCR1 h
  have noCR3 : '\r' ∉ l3 := fun hm => noCR2 (sub3_mem hm)
  have noCR4 : '\r' ∉ l4 := fun hm => noCR3 (dropWhile_mem hm)
  have noCR5 : '\r' ∉ rtrim l4 := fun hm => noCR4 (rtrim_mem hm)
  have noTab2 : '\t' ∉ l2 := sub2_noTab l1
  have noTab3 : '\t' ∉ l3 := fun hm => noTab2 (sub3_mem hm)
  have noTab4 : '\t' ∉ l4 := fun hm => noTab3 (dropWhile_mem hm)
  have noTab5 : '\t' ∉ rtrim l4 := fun hm => noTab4 (rtrim_mem hm)
  have hh2 : noHH l2 = true := noHH_sub2 l1
  have hh3 : noHH l3 = true := noHH_sub3 hh2
  have hh4 : noHH l4 = true := noHH_dropWhile hh3
  have hh5 : noHH (rtrim l4) = true := noHH_rtrim hh4
  have h33 : no3 l3 = true := no3_sub3 l2
  have h34 : no3 l4 = true := no3_dropWhile h33
  have h35 : no3 (rtrim l4) = true := no3_rtrim h34
  have hhd4 : headNoSpace l4 = true := headNoSpace_dropWhile l3
  have hhd5 : headNoSpace (rtrim l4) = true := rtrim_headNoSpace hhd4
  have hls5 : lastNoSpace (rtrim l4) = true := rtrim_last l4
  exact ⟨noCR5, noTab5, hh5, h35, hhd5, hls5⟩

/-- `normList` is the identity on fully normalized character lists. -/
theorem normList_id {l : List Char} (h : isNormal l) : normList l = l := by
  obtain ⟨hcr, htab, hhh, h3, hhd, hls⟩ := h
  unfold normList pyStripL
  rw [sub1_id hcr, sub2_id htab hhh, sub3_id h3, dropWhile_id hhd, rtrim_id hls]

/-- C7: for every string `t`, `normalize_whitespace` is idempotent:
`normalize_whitespace (normalize_whitespace t) = normalize_whitespace t`. -/
theorem normalize_whitespace_idem (t : String) :
    normalize_whitespace (normalize_whitespace t) = normalize_whitespace t := by
  show String.mk (normList (String.mk (normList t.data)).data) =
    String.mk (normList t.data)
  exact congrArg String.mk (normList_id (isNormal_normList t.data))

/-! ### The Fetcher claim -/

/-- C6: whatever status code a completed response carries (2xx or not) is
returned as data in the fetch outcome, together with the final URL and body;
`fetch_url` signals an error exactly for transport-level failures. -/
theorem fetch_url_status_is_data :
    (∀ (status : Nat) (finalUrl htmlText : String),
        fetch_url (TransportResult.response status finalUrl htmlText) =
          Except.ok (status, finalUrl, htmlText)) ∧
    (∀ msg : String,
        fetch_url (TransportResult.failure msg) =
          Except.error { message := msg }) := by
  exact ⟨fun _ _ _ => rfl, fun _ => rfl⟩

/-! ### Batch loop claims -/

/-- The batch loop is a per-item map: one row per input, in order. -/
theorem runBatch_cons (url : String) (oc : ItemOutcome)
    (rest : List (String × ItemOutcome)) :
    runBatch ((url, oc) :: rest) = processItem url oc :: runBatch rest := rfl

/-- The batch length never differs from the input length. -/
theorem runBatch_length : ∀ items : List (String × ItemOutcome),
    (runBatch items).length = items.length
  | [] => rfl
  | (url, oc) :: rest => by
    simp [runBatch_cons, runBatch_length rest]

/-- The i-th row's `input_url` is the i-th input URL. -/
theorem runBatch_url_at : ∀ (items : List (String × ItemOutcome)) (i : Nat),
    ((runBatch items)[i]?).map ResultRow.input_url = (items[i]?).map Prod.fst
  | [], i => rfl
  | (url, oc) :: rest, 0 => by
    cases oc <;> simp [runBatch_cons, processItem]
  | (url, oc) :: rest, j + 1 => by
    simpa [runBatch_cons] using runBatch_url_at rest j

/-- A raised item yields exactly the default failure row at its own index and
leaves the processing of the remaining items untouched. -/
theorem runBatch_raised_at : ∀ (items : List (String × ItemOutcome)) (i : Nat)
    (url msg : String), items[i]? = some (url, ItemOutcome.raised msg) →
    (runBatch items)[i]? = some
      { input_url := url, final_url := "", http_status := none, title := "",
        body_text := "", body_len_chars := 0, error := msg } ∧
    (runBatch items).drop (i + 1) = runBatch (items.drop (i + 1))
  | [], i, url, msg, h => by simp at h
  | (u, oc) :: rest, 0, url, msg, h => by
    simp only [List.getElem?_cons_zero, Option.some_inj] at h
    obtain ⟨hu, hoc⟩ := Prod.mk.injEq .. ▸ h
    subst hu
    subst hoc
    exact ⟨by simp [runBatch_cons, processItem], by simp [runBatch_cons]⟩
  | (u, oc) :: rest, j + 1, url, msg, h => by
    simp only [List.getElem?_cons_succ] at h
    obtain ⟨h1, h2⟩ := runBatch_raised_at rest j url msg h
    exact ⟨by simpa [runBatch_cons] using h1, by simpa [runBatch_cons] using h2⟩

/-- C4: the batch produces exactly one row per input URL, and the i-th row
corresponds to the i-th input URL. -/
theorem runBatch_complete (items : List (String × ItemOutcome)) :
    (runBatch items).length = items.length ∧
    ∀ i : Nat, ((runBatch items)[i]?).map ResultRow.input_url =
      (items[i]?).map Prod.fst :=
  ⟨runBatch_length items, runBatch_url_at items⟩

/-- C4 witness: a concrete two-URL batch has two rows with matching URLs. -/
theorem runBatch_complete_witness :
    (runBatch [("http://a", ItemOutcome.raised "x"),
               ("http://b", ItemOutcome.fetched 200 "http://b/" (Node.text "hi"))]).length = 2 ∧
    ((runBatch [("http://a", ItemOutcome.raised "x"),
                ("http://b", ItemOutcome.fetched 200 "http://b/" (Node.text "hi"))])[0]?).map
        ResultRow.input_url = some "http://a" := by
  refine ⟨(runBatch_complete _).1, ?_⟩
  rw [(runBatch_complete _).2 0]
  rfl

/-- C9: any exception raised inside one iteration (fetch or extraction) is
caught at the per-item boundary: its message becomes that row's `error`
field, the batch length is unchanged, and the remaining URLs are processed
exactly as they would be on their own. -/
theorem runBatch_isolates_failures (items : List (String × ItemOutcome))
    (i : Nat) (url msg : String)
    (h : items[i]? = some (url, ItemOutcome.raised msg)) :
    (runBatch items)[i]? = some
      { input_url := url, final_url := "", http_status := none, title := "",
        body_text := "", body_len_chars := 0, error := msg } ∧
    (runBatch items).length = items.length ∧
    (runBatch items).drop (i + 1) = runBatch (items.drop (i + 1)) :=
  ⟨(runBatch_raised_at items i url msg h).1, runBatch_length items,
    (runBatch_raised_at items i url msg h).2⟩

/-- C9 witness: in a concrete batch whose first fetch raises, the failure is
recorded in row 0 and the second URL is still processed. -/
theorem runBatch_isolates_failures_witness :
    (runBatch [("http://a", ItemOutcome.raised "boom"),
               ("http://b", ItemOutcome.fetched 200 "http://b/" (Node.text "hi"))])[0]? =
      some { input_url := "http://a", final_url := "", http_status := none,
             title := "", body_text := "", body_len_chars := 0, error := "boom" } ∧
    (runBatch [("http://a", ItemOutcome.raised "boom"),
               ("http://b", ItemOutcome.fetched 200 "http://b/" (Node.text "hi"))]).length = 2 ∧
    (runBatch [("http://a", ItemOutcome.raised "boom"),
               ("http://b", ItemOutcome.fetched 200 "http://b/" (Node.text "hi"))]).drop 1 =
      runBatch [("http://b", ItemOutcome.fetched 200 "http://b/" (Node.text "hi"))] :=
  runBatch_isolates_failures _ 0 "http://a" "boom" rfl

/-- C10: the row of a failed URL keeps the original input URL while every
other content field is reset to its empty/default value. -/
theorem failed_row_keeps_input_url (items : List (String × ItemOutcome))
    (i : Nat) (url msg : String)
    (h : items[i]? = some (url, ItemOutcome.raised msg)) :
    ∃ r : ResultRow, (runBatch items)[i]? = some r ∧
      r.input_url = url ∧ contentFieldsEmpty r ∧ r.error = msg := by
  refine ⟨_, (runBatch_raised_at items i url msg h).1, rfl, ?_, rfl⟩
  exact ⟨rfl, rfl, rfl, rfl, rfl⟩

/-- C10 witness: a concrete failed URL keeps its input URL in the row. -/
theorem failed_row_keeps_input_url_witness :
    ∃ r : ResultRow,
      (runBatch [("http://a", ItemOutcome.raised "boom")])[0]? = some r ∧
        r.input_url = "http://a" ∧ contentFieldsEmpty r ∧ r.error = "boom" :=
  failed_row_keeps_input_url _ 0 "http://a" "boom" rfl

/-- C8: in every successful row (empty `error`), `body_len_chars` equals the
character count of `body_text`. -/
theorem body_len_chars_consistent (items : List (String × ItemOutcome))
    (r : ResultRow) (hr : r ∈ runBatch items) (he : r.error = "") :
    r.body_len_chars = r.body_text.length := by
  induction items with
  | nil => simp [runBatch] at hr
  | cons it rest ih =>
    obtain ⟨url, oc⟩ := it
    rw [runBatch_cons] at hr
    rcases List.mem_cons.mp hr with h1 | h1
    · cases oc with
      | fetched status finalUrl doc => subst h1; rfl
      | raised msg => subst h1; rfl
    · exact ih h1

/-- C8 witness: a concrete successful row has a consistent length field. -/
theorem body_len_chars_consistent_witness :
    ∃ r ∈ runBatch [("http://b", ItemOutcome.fetched 200 "http://b/" exDocInline)],
      r.error = "" ∧ r.body_len_chars = r.body_text.length := by
  refine ⟨processItem "http://b" (ItemOutcome.fetched 200 "http://b/" exDocInline),
    List.mem_cons_self _ _, rfl, ?_⟩
  exact body_len_chars_consistent
    [("http://b", ItemOutcome.fetched 200 "http://b/" exDocInline)] _
    (List.mem_cons_self _ _) rfl

/-- C3 (amended): when every exception message recorded in a batch is
non-empty, each row's `error` field is empty XOR all its content fields hold
empty/default values. -/
theorem row_error_xor_content (items : List (String × ItemOutcome))
    (hmsg : ∀ url msg, (url, ItemOutcome.raised msg) ∈ items → msg ≠ "")
    (r : ResultRow) (hr : r ∈ runBatch items) :
    Xor' (r.error = "") (contentFieldsEmpty r) := by
  induction items with
  | nil => simp [runBatch] at hr
  | cons it rest ih =>
    obtain ⟨url, oc⟩ := it
    rw [runBatch_cons] at hr
    rcases List.mem_cons.mp hr with h1 | h1
    · cases oc with
      | fetched status finalUrl doc =>
        subst h1
        left
        refine ⟨rfl, ?_⟩
        intro hc
        exact Option.noConfusion hc.2.1
      | raised msg =>
        subst h1
        right
        refine ⟨⟨rfl, rfl, rfl, rfl, rfl⟩, ?_⟩
        exact hmsg url msg (List.mem_cons_self _ _)
    · exact ih (fun u m hm => hmsg u m (List.mem_cons_of_mem _ hm)) h1

/-- C3 witness: in a concrete batch with a non-empty failure message and a
success, both rows satisfy the XOR. -/
theorem row_error_xor_content_witness :
    Xor' ((processItem "http://a" (ItemOutcome.raised "boom")).error = "")
      (contentFieldsEmpty (processItem "http://a" (ItemOutcome.raised "boom"))) := by
  refine row_error_xor_content [("http://a", ItemOutcome.raised "boom")] ?_ _
    (List.mem_cons_self _ _)
  intro url msg hm
  simp only [List.mem_singleton, Prod.mk.injEq, ItemOutcome.raised.injEq] at hm
  rw [hm.2]
  decide

/-- C3 counterexample: `str(e)` can be the empty string (for example
`requests.exceptions.ConnectionError()` stringifies to `""`); the resulting
row has an empty `error` field AND empty content fields, so the claimed XOR
fails for that batch run. -/
theorem row_error_xor_content_cex :
    runBatch [("http://x", ItemOutcome.raised "")] =
      [{ input_url := "http://x", final_url := "", http_status := none,
         title := "", body_text := "", body_len_chars := 0, error := "" }] ∧
    ¬ Xor' ((processItem "http://x" (ItemOutcome.raised "")).error = "")
        (contentFieldsEmpty (processItem "http://x" (ItemOutcome.raised ""))) := by
  constructor
  · rfl
  · intro hx
    rcases hx with ⟨_, hno⟩ | ⟨_, hno⟩
    · exact hno ⟨rfl, rfl, rfl, rfl, rfl⟩
    · exact hno rfl

/-! ### Extraction claims -/

/-- C5: when the document has no `<body>` element, extraction does not fail:
it returns the title and the normalized whole-document text, skipping the
removal passes entirely. -/
theorem no_body_fallback (doc : Node) (h : findElemL "body" [doc] = none) :
    extract_body_text doc =
      (titleOf doc, normalize_whitespace (getTextSep "\n" doc)) := by
  unfold extract_body_text
  rw [h]

/-- C5 witness: a concrete body-less document falls back to whole-document
text (which here is non-empty). -/
theorem no_body_fallback_witness :
    extract_body_text exDocNoBody =
      (titleOf exDocNoBody, normalize_whitespace (getTextSep "\n" exDocNoBody)) ∧
    extract_body_text exDocNoBody = ("T", "T\nhello") :=
  ⟨no_body_fallback exDocNoBody rfl, rfl⟩

mutual

/-- `findElemN` only ever returns an element carrying the searched tag. -/
theorem findElemN_is_elem (tag : String) : ∀ (n m : Node),
    findElemN tag n = some m → ∃ i c cs, m = Node.elem tag i c cs
  | Node.text s, m, h => by simp [findElemN] at h
  | Node.elem t i c cs, m, h => by
    by_cases ht : (t == tag) = true
    · rw [show findElemN tag (Node.elem t i c cs) = some (Node.elem t i c cs) by
          simp [findElemN, ht]] at h
      obtain rfl : Node.elem t i c cs = m := by simpa using h
      exact ⟨i, c, cs, by rw [(by simpa using ht : t = tag)]⟩
    · rw [show findElemN tag (Node.elem t i c cs) = findElemL tag cs by
          simp [findElemN, ht]] at h
      exact findElemL_is_elem tag cs m h

/-- `findElemL` only ever returns an element carrying the searched tag. -/
theorem findElemL_is_elem (tag : String) : ∀ (l : List Node) (m : Node),
    findElemL tag l = some m → ∃ i c cs, m = Node.elem tag i c cs
  | [], m, h => by simp [findElemL] at h
  | n :: rest, m, h => by
    cases hn : findElemN tag n with
    | some k =>
      rw [show findElemL tag (n :: rest) = some k by simp [findElemL, hn]] at h
      obtain rfl : k = m := by simpa using h
      exact findElemN_is_elem tag n _ hn
    | none =>
      rw [show findElemL tag (n :: rest) = findElemL tag rest by
          simp [findElemL, hn]] at h
      exact findElemL_is_elem tag rest m h

end

/-- `junkFree` distributes over forest concatenation. -/
theorem junkFree_append : ∀ a b : List Node,
    junkFree (a ++ b) = (junkFree a && junkFree b)
  | [], b => by simp [junkFree]
  | n :: rest, b => by
    simp [junkFree, junkFree_append rest b, Bool.and_assoc]

mutual

/-- The junk-selector pass leaves no removable node behind (node level). -/
theorem junkFree_removeJunkN : ∀ n : Node, junkFree (removeJunkN n) = true
  | Node.text s => by simp [removeJunkN, junkFree, junkFreeN]
  | Node.elem t i c cs => by
    by_cases hj : isJunkElem (Node.elem t i c cs) = true
    · rw [show removeJunkN (Node.elem t i c cs) = [] by simp [removeJunkN, hj]]
      rfl
    · rw [show removeJunkN (Node.elem t i c cs) =
          [Node.elem t i c (removeJunk cs)] by simp [removeJunkN, hj]]
      have hcond : (t == "body" ||
          !(attrMatches idPats i || attrMatches clsPats c)) = true := by
        cases hp : (t == "body") with
        | true => simp [hp]
        | false =>
          cases hq : (attrMatches idPats i || attrMatches clsPats c) with
          | false => simp [hq]
          | true => exact absurd (by simp [isJunkElem, hp, hq]) hj
      show ((t == "body" || !(attrMatches idPats i || attrMatches clsPats c)) &&
          junkFree (removeJunk cs) && true) = true
      rw [hcond, junkFree_removeJunk cs]
      rfl

/-- The junk-selector pass leaves no removable element behind: every
remaining element either is named `body` or has non-matching attributes. -/
theorem junkFree_removeJunk : ∀ l : List Node, junkFree (removeJunk l) = true
  | [] => by simp [removeJunk, junkFree]
  | n :: rest => by
    rw [show removeJunk (n :: rest) = removeJunkN n ++ removeJunk rest by
        simp [removeJunk]]
    rw [junkFree_append]
    simp [junkFree_removeJunkN n, junkFree_removeJunk rest]

end

/-- C1 (amended): whenever a `<body>` element is found, the cleaning passes
keep the body element itself (its tag and attributes intact, even when they
match), and remove every element under it whose `id` matches the six-pattern
regex (`cookie|consent|gdpr|newsletter|popup|modal`) or whose `class`
matches the seven-pattern regex (those six plus `overlay`),
case-insensitively, except elements named `body`. -/
theorem junk_removed_from_body (doc b : Node)
    (h : findElemL "body" [doc] = some b) :
    ∃ i c cs, b = Node.elem "body" i c cs ∧
      cleanBody b = Node.elem "body" i c (cleanChildren cs) ∧
      junkFree (cleanChildren cs) = true := by
  obtain ⟨i, c, cs, rfl⟩ := findElemL_is_elem "body" [doc] b h
  exact ⟨i, c, cs, rfl, rfl, junkFree_removeJunk _⟩

/-- C1 witness: the concrete overlay document's body is kept and its cleaned
children contain no removable element. -/
theorem junk_removed_from_body_witness :
    ∃ i c cs, Node.elem "body" none none [overlayDiv] = Node.elem "body" i c cs ∧
      cleanBody (Node.elem "body" none none [overlayDiv]) =
        Node.elem "body" i c (cleanChildren cs) ∧
      junkFree (cleanChildren cs) = true :=
  junk_removed_from_body exDocOverlay (Node.elem "body" none none [overlayDiv]) rfl

/-- C1 counterexample: an element with `id="overlay"` matches the claimed
seven-pattern list but the source's `id` regex (six patterns, no `overlay`)
does not remove it: it survives cleaning and its text reaches the output. -/
theorem junk_removal_misses_overlay_id :
    specJunkFree7 (cleanChildren [overlayDiv]) = false ∧
    (extract_body_text exDocOverlay).2 = "X" :=
  ⟨rfl, rfl⟩

/-- `collectTextsL` distributes over forest concatenation. -/
theorem collectTextsL_append : ∀ a b : List Node,
    collectTextsL (a ++ b) = collectTextsL a ++ collectTextsL b
  | [], b => by simp [collectTextsL]
  | n :: rest, b => by
    simp [collectTextsL, collectTextsL_append rest b]

/-- The worklist traversal collects exactly the same text-node strings as
`collectTextsL`. -/
theorem textPiecesAux_eq_collect (l : List Node) :
    textPiecesAux l = collectTextsL l := by
  induction l using textPiecesAux.induct with
  | case1 => simp [textPiecesAux, collectTextsL]
  | case2 s rest ih => simp [textPiecesAux, collectTextsL, collectTextsN, ih]
  | case3 t i c cs rest ih =>
    simp [textPiecesAux, collectTextsL, collectTextsN, ih, collectTextsL_append]

/-- C2 (amended): after boilerplate removal the body text is produced by
inserting the newline separator between **every** pair of consecutive text
nodes of the cleaned body — including text nodes of inline elements inside
one block — with each piece stripped and empty pieces dropped, then
whitespace-normalized. -/
theorem body_text_splits_inline_too (doc b : Node)
    (h : findElemL "body" [doc] = some b) :
    (extract_body_text doc).2 =
      normalize_whitespace (String.intercalate "\n"
        (((textPiecesAux [cleanBody b]).map pyStripS).filter
          (fun s => !(s == "")))) := by
  unfold extract_body_text
  rw [h, textPiecesAux_eq_collect]
  rfl

/-- C2 witness: the concrete inline document's body text equals the
all-text-nodes join. -/
theorem body_text_splits_inline_too_witness :
    (extract_body_text exDocInline).2 =
      normalize_whitespace (String.intercalate "\n"
        (((textPiecesAux [cleanBody exBodyInline]).map pyStripS).filter
          (fun s => !(s == "")))) ∧
    (extract_body_text exDocInline).2 = "a\nb" :=
  ⟨body_text_splits_inline_too exDocInline exBodyInline rfl, rfl⟩

/-- C2 counterexample: in `<body><p>a<b>b</b></p></body>` the text nodes `a`
and `b` belong to the same block-level node `<p>` (`<b>` is inline), yet the
code separates them with a newline: the output is `"a\nb"` while the
block-separation rule of the claim yields `"ab"`. -/
theorem body_text_not_block_separated :
    (extract_body_text exDocInline).2 = "a\nb" ∧
    spec_blockText (cleanBody exBodyInline) = "ab" ∧
    (extract_body_text exDocInline).2 ≠ spec_blockText (cleanBody exBodyInline) := by
  refine ⟨rfl, rfl, ?_⟩
  decide
